import Mathlib

/-!
Shallow embedding of the mod-notes subsystem
(`praw/models/mod_notes.py`, `praw/models/mod_note.py`) and proofs about it.

Network effects are modelled by oracles (functions from request parameters to
decoded responses) and by explicit request traces: every embedded operation
returns, besides its outputs, the list of requests it issued, in order.
The generic response deserialization ("objectify") is modelled as the
identity on decoded notes, with a JSON `null` entry decoding to `none`
(an absent marker).
-/

namespace PrawModNotes

/-- A decoded mod note (`ModNote`), restricted to the fields the embedded
operations read: `str(self.user)`, `str(self.subreddit)` and `self.id`
(used by `ModNote.delete`). -/
structure Note where
  user : String
  subreddit : String
  id : String
deriving DecidableEq, Repr

/-- Query parameters of one bulk-lookup request
(`API_PATH["mod_notes_bulk"]`): the comma-joined `subreddits` and `users`
lists built in `ModNotes._bulk_generator`. -/
structure BulkParams where
  subreddits : String
  users : String
deriving DecidableEq, Repr

/-- Query parameters of the listing endpoint (`API_PATH["mod_notes"]`), as
assembled by `ModNotes._all_generator`: `subreddit=subreddit or
self.subreddit`, `user=redditor`. -/
structure ListingParams where
  subreddit : Option String
  user : String
deriving DecidableEq, Repr

/-- One network request issued by the subsystem.  `listGet p i` is the
request for page `i` of the paginated listing with parameters `p`;
`del user subreddit note_id` is a deletion request. -/
inductive Request where
  | bulkGet : BulkParams → Request
  | listGet : ListingParams → Nat → Request
  | del : String → String → Option String → Request
deriving DecidableEq, Repr

/-- Python truthiness test for an optional string argument: `not x` is true
exactly when `x` is `None` or the empty string. -/
def pyFalsy : Option String → Bool
  | none => true
  | some s => s = ""

/-- Python `a or b` on an optional string `a`: yields `a` when truthy,
otherwise `b`. -/
def pyOr (a b : Option String) : Option String :=
  match a with
  | none => b
  | some s => if s = "" then b else some s

/-- Python `str` applied to an optional value: `str(None) = "None"`, and a
`Redditor`/`Subreddit` object stringifies to its name. -/
def pyStr (o : Option String) : String := o.getD "None"

/-- `",".join(map(str, chunk))` for a chunk whose elements already resolve
to strings. -/
def joinComma (l : List String) : String := String.intercalate "," l

/-- The successive `islice(
  it, 500)` chunks drawn from one input sequence in
`ModNotes._bulk_generator`. -/
def chunks500 (l : List String) : List (List String) :=
  if h : l = [] then [] else l.take 500 :: chunks500 (l.drop 500)
termination_by l.length
decreasing_by
  simp only [List.length_drop]
  have : l.length ≠ 0 := fun hl => h (List.length_eq_zero.mp hl)
  omega

theorem chunks500_nil : chunks500 [] = [] := by
  simp [chunks500]

theorem chunks500_cons {l : List String} (h : l ≠ []) :
    chunks500 l = l.take 500 :: chunks500 (l.drop 500) := by
  rw [chunks500]
  simp [h]

theorem chunks500_length_aux :
    ∀ (n : Nat) (l : List String), l.length ≤ n →
      (chunks500 l).length = (l.length + 499) / 500 := by
  intro n
  induction n with
  | zero =>
    intro l hl
    have : l = [] := List.length_eq_zero.mp (Nat.le_zero.mp hl)
    subst this
    simp [chunks500_nil]
  | succ n ih =>
    intro l hl
    by_cases h : l = []
    · subst h; simp [chunks500_nil]
    · rw [chunks500_cons h]
      have hpos : 0 < l.length := List.length_pos.mpr h
      have hdrop : (l.drop 500).length = l.length - 500 := List.length_drop 500 l
      have := ih (l.drop 500) (by omega)
      simp only [List.length_cons, this, hdrop]
      omega

/-- The number of 500-chunks of a list is `ceil(length / 500)`. -/
theorem chunks500_length (l : List String) :
    (chunks500 l).length = (l.length + 499) / 500 :=
  chunks500_length_aux l.length l (Nat.le_refl _)

theorem chunks500_join_aux :
    ∀ (n : Nat) (l : List String), l.length ≤ n → (chunks500 l).flatten = l := by
  intro n
  induction n with
  | zero =>
    intro l hl
    have : l = [] := List.length_eq_zero.mp (Nat.le_zero.mp hl)
    subst this
    simp [chunks500_nil]
  | succ n ih =>
    intro l hl
    by_cases h : l = []
    · subst h; simp [chunks500_nil]
    · rw [chunks500_cons h]
      have hpos : 0 < l.length := List.length_pos.mpr h
      have hdrop : (l.drop 500).length = l.length - 500 := List.length_drop 500 l
      have := ih (l.drop 500) (by omega)
      simp only [List.flatten_cons, this, List.take_append_drop]

/-- Concatenating the 500-chunks gives back the input: chunking loses no
element and preserves order. -/
theorem chunks500_join (l : List String) : (chunks500 l).flatten = l :=
  chunks500_join_aux l.length l (Nat.le_refl _)

theorem chunks500_getD_aux :
    ∀ (n : Nat) (l : List String), l.length ≤ n →
      ∀ i, (chunks500 l).getD i [] = (l.drop (500 * i)).take 500 := by
  intro n
  induction n with
  | zero =>
    intro l hl i
    have : l = [] := List.length_eq_zero.mp (Nat.le_zero.mp hl)
    subst this
    simp [chunks500_nil]
  | succ n ih =>
    intro l hl i
    by_cases h : l = []
    · subst h; simp [chunks500_nil]
    · rw [chunks500_cons h]
      cases i with
      | zero => simp
      | succ i =>
        have hpos : 0 < l.length := List.length_pos.mpr h
        have hdrop : (l.drop 500).length = l.length - 500 := List.length_drop 500 l
        have := ih (l.drop 500) (by omega) i
        simp only [List.getD_cons_succ, this, List.drop_drop]
        congr 2
        ring

/-- The `i`-th 500-chunk of `l` is exactly the slice of `l` starting at
offset `500 * i`: chunk boundaries sit at multiples of 500. -/
theorem chunks500_getD (l : List String) (i : Nat) :
    (chunks500 l).getD i [] = (l.drop (500 * i)).take 500 :=
  chunks500_getD_aux l.length l (Nat.le_refl _) i

/-!
`ModNotes._bulk_generator(subreddits, users)`: repeatedly slice 500 elements
off each input, stop when both chunks are empty (`if not
any([subreddits_chunk, users_chunk]): break`), issue one GET per chunk pair
with comma-joined parameter lists, and yield each objectified entry of the
response's `mod_notes` field.  A `null` entry objectifies to `none`.

`bulkAll` is the fully-consumed run: outputs paired with the request trace.
`bulkNext`/`bulkTake` render the same generator lazily, one `next()` at a
time; each advance reports the requests it issued.
-/

/-- Full consumption of `ModNotes._bulk_generator`: the pair of (all yielded
notes, all issued bulk requests in order). -/
def bulkAll (oracle : BulkParams → List (Option Note)) (subs users : List String) :
    List (Option Note) × List Request :=
  if h : subs = [] ∧ users = [] then ([], [])
  else
    let p : BulkParams := ⟨joinComma (subs.take 500), joinComma (users.take 500)⟩
    let rest := bulkAll oracle (subs.drop 500) (users.drop 500)
    (oracle p ++ rest.1, Request.bulkGet p :: rest.2)
termination_by subs.length + users.length
decreasing_by
  simp only [List.length_drop]
  rcases not_and_or.mp h with h1 | h1 <;>
    · have : _ ≠ 0 := fun hl => h1 (List.length_eq_zero.mp hl)
      omega

/-- State of a partially consumed `_bulk_generator`: the unconsumed slices of
both inputs, plus the notes of the current chunk's response that were decoded
but not yet yielded. -/
structure BulkState where
  subs : List String
  users : List String
  buffer : List (Option Note)
deriving DecidableEq, Repr

/-- Calling `_bulk_generator` creates a generator and runs none of its body:
no request is issued and the buffer is empty. -/
def mkBulkGen (subs users : List String) : BulkState := ⟨subs, users, []⟩

/-- One `next()` on the bulk generator: either a buffered note is yielded
with no request, or the next chunk is fetched (requests accumulate past
chunks whose responses were empty) until a note can be yielded or both
inputs are exhausted (`none` = `StopIteration`). -/
def bulkNext (oracle : BulkParams → List (Option Note)) :
    BulkState → Option (Option Note × BulkState) × List Request
  | ⟨subs, users, n :: buf⟩ => (some (n, ⟨subs, users, buf⟩), [])
  | ⟨subs, users, []⟩ =>
    if h : subs = [] ∧ users = [] then (none, [])
    else
      let p : BulkParams := ⟨joinComma (subs.take 500), joinComma (users.take 500)⟩
      match oracle p with
      | [] =>
        let r := bulkNext oracle ⟨subs.drop 500, users.drop 500, []⟩
        (r.1, Request.bulkGet p :: r.2)
      | n :: ns => (some (n, ⟨subs.drop 500, users.drop 500, ns⟩), [Request.bulkGet p])
termination_by s => s.subs.length + s.users.length
decreasing_by
  simp only [List.length_drop]
  rcases not_and_or.mp h with h1 | h1 <;>
    · have : _ ≠ 0 := fun hl => h1 (List.length_eq_zero.mp hl)
      omega

/-- Advance the bulk generator at most `n` times, collecting the yielded
notes and every request issued along the way. -/
def bulkTake (oracle : BulkParams → List (Option Note)) :
    BulkState → Nat → List (Option Note) × List Request
  | _, 0 => ([], [])
  | s, n + 1 =>
    match bulkNext oracle s with
    | (none, reqs) => ([], reqs)
    | (some (x, s1), reqs) =>
      let r := bulkTake oracle s1 n
      (x :: r.1, reqs ++ r.2)

theorem bulkAll_nil (oracle : BulkParams → List (Option Note)) :
    bulkAll oracle [] [] = ([], []) := by
  rw [bulkAll]
  simp

theorem bulkAll_step (oracle : BulkParams → List (Option Note)) {subs users : List String}
    (h : ¬(subs = [] ∧ users = [])) :
    bulkAll oracle subs users =
      (oracle ⟨joinComma (subs.take 500), joinComma (users.take 500)⟩ ++
          (bulkAll oracle (subs.drop 500) (users.drop 500)).1,
        Request.bulkGet ⟨joinComma (subs.take 500), joinComma (users.take 500)⟩ ::
          (bulkAll oracle (subs.drop 500) (users.drop 500)).2) := by
  rw [bulkAll]
  simp [h]

theorem bulkNext_buf (oracle : BulkParams → List (Option Note))
    (subs users : List String) (n : Option Note) (buf : List (Option Note)) :
    bulkNext oracle ⟨subs, users, n :: buf⟩ = (some (n, ⟨subs, users, buf⟩), []) := by
  rw [bulkNext]

theorem bulkNext_empty_buf (oracle : BulkParams → List (Option Note))
    (subs users : List String) :
    bulkNext oracle ⟨subs, users, []⟩ =
      if subs = [] ∧ users = [] then (none, [])
      else
        let p : BulkParams := ⟨joinComma (subs.take 500), joinComma (users.take 500)⟩
        match oracle p with
        | [] =>
          let r := bulkNext oracle ⟨subs.drop 500, users.drop 500, []⟩
          (r.1, Request.bulkGet p :: r.2)
        | n :: ns =>
          (some (n, ⟨subs.drop 500, users.drop 500, ns⟩), [Request.bulkGet p]) := by
  rw [bulkNext]
  split <;> rfl

/-- Auxiliary invariant for `bulkNext` on a state with an empty buffer,
by strong induction on the remaining input length. -/
theorem bulkNext_spec_aux (oracle : BulkParams → List (Option Note)) :
    ∀ (m : Nat) (subs users : List String), subs.length + users.length ≤ m →
      (∀ reqs, bulkNext oracle ⟨subs, users, []⟩ = (none, reqs) →
        (bulkAll oracle subs users).2 = reqs ∧ (bulkAll oracle subs users).1 = []) ∧
      (∀ x s1 reqs, bulkNext oracle ⟨subs, users, []⟩ = (some (x, s1), reqs) →
        (bulkAll oracle subs users).2 = reqs ++ (bulkAll oracle s1.subs s1.users).2 ∧
        (bulkAll oracle subs users).1 =
          x :: (s1.buffer ++ (bulkAll oracle s1.subs s1.users).1)) := by
  intro m
  induction m with
  | zero =>
    intro subs users hm
    have hs : subs = [] := List.length_eq_zero.mp (by omega)
    have hu : users = [] := List.length_eq_zero.mp (by omega)
    subst hs; subst hu
    have hnext : bulkNext oracle ⟨[], [], []⟩ = (none, []) := by
      rw [bulkNext_empty_buf]; simp
    refine ⟨fun reqs h => ?_, fun x s1 reqs h => ?_⟩
    · rw [hnext] at h
      obtain ⟨-, rfl⟩ := Prod.mk.injEq .. ▸ h
      simp [bulkAll_nil]
    · rw [hnext] at h
      simp at h
  | succ m ih =>
    intro subs users hm
    by_cases hb : subs = [] ∧ users = []
    · obtain ⟨rfl, rfl⟩ := hb
      have hnext : bulkNext oracle ⟨[], [], []⟩ = (none, []) := by
        rw [bulkNext_empty_buf]; simp
      refine ⟨fun reqs h => ?_, fun x s1 reqs h => ?_⟩
      · rw [hnext] at h
        obtain ⟨-, rfl⟩ := Prod.mk.injEq .. ▸ h
        simp [bulkAll_nil]
      · rw [hnext] at h
        simp at h
    · have hlen : (subs.drop 500).length + (users.drop 500).length ≤ m := by
        rcases not_and_or.mp hb with h1 | h1 <;>
          · have : _ ≠ 0 := fun hl => h1 (List.length_eq_zero.mp hl)
            simp only [List.length_drop]
            omega
      have hall : bulkAll oracle subs users =
          (oracle ⟨joinComma (subs.take 500), joinComma (users.take 500)⟩ ++
              (bulkAll oracle (subs.drop 500) (users.drop 500)).1,
            Request.bulkGet ⟨joinComma (subs.take 500), joinComma (users.take 500)⟩ ::
              (bulkAll oracle (subs.drop 500) (users.drop 500)).2) :=
        bulkAll_step oracle hb
      rcases ho : oracle ⟨joinComma (subs.take 500), joinComma (users.take 500)⟩
        with _ | ⟨n, ns⟩
      · -- empty response: the generator recurses into the next chunk
        have hnext : bulkNext oracle ⟨subs, users, []⟩ =
            ((bulkNext oracle ⟨subs.drop 500, users.drop 500, []⟩).1,
             Request.bulkGet ⟨joinComma (subs.take 500), joinComma (users.take 500)⟩ ::
               (bulkNext oracle ⟨subs.drop 500, users.drop 500, []⟩).2) := by
          rw [bulkNext_empty_buf]
          simp only [if_neg hb, ho]
        refine ⟨fun reqs h => ?_, fun x s1 reqs h => ?_⟩
        · rw [hnext] at h
          obtain ⟨h1, rfl⟩ := Prod.mk.injEq .. ▸ h
          have hrec := ((ih (subs.drop 500) (users.drop 500) hlen).1) _
            (Prod.ext h1 rfl)
          rw [hall]
          simp [hrec.1, hrec.2, ho]
        · rw [hnext] at h
          obtain ⟨h1, rfl⟩ := Prod.mk.injEq .. ▸ h
          have hrec := ((ih (subs.drop 500) (users.drop 500) hlen).2) x s1 _
            (Prod.ext h1 rfl)
          rw [hall]
          simp [hrec.1, hrec.2, ho]
      · -- non-empty response: the head note is yielded, the tail buffered
        have hnext : bulkNext oracle ⟨subs, users, []⟩ =
            (some (n, ⟨subs.drop 500, users.drop 500, ns⟩),
             [Request.bulkGet ⟨joinComma (subs.take 500), joinComma (users.take 500)⟩]) := by
          rw [bulkNext_empty_buf]
          simp only [if_neg hb, ho]
        refine ⟨fun reqs h => ?_, fun x s1 reqs h => ?_⟩
        · rw [hnext] at h
          simp at h
        · rw [hnext] at h
          simp only [Prod.mk.injEq, Option.some.injEq] at h
          obtain ⟨⟨rfl, rfl⟩, rfl⟩ := h
          rw [hall]
          simp [ho]

/-- One advance of the lazy bulk generator accounts exactly for the next
slice of the full run: its requests are the next requests of the full trace,
and the yielded note (when one is yielded) is the next output. -/
theorem bulkNext_spec (oracle : BulkParams → List (Option Note)) (s : BulkState) :
    (∀ reqs, bulkNext oracle s = (none, reqs) →
      (bulkAll oracle s.subs s.users).2 = reqs ∧
      s.buffer ++ (bulkAll oracle s.subs s.users).1 = []) ∧
    (∀ x s1 reqs, bulkNext oracle s = (some (x, s1), reqs) →
      (bulkAll oracle s.subs s.users).2 = reqs ++ (bulkAll oracle s1.subs s1.users).2 ∧
      s.buffer ++ (bulkAll oracle s.subs s.users).1 =
        x :: (s1.buffer ++ (bulkAll oracle s1.subs s1.users).1)) := by
  obtain ⟨subs, users, buf⟩ := s
  cases buf with
  | nil =>
    have h := bulkNext_spec_aux oracle (subs.length + users.length) subs users (Nat.le_refl _)
    refine ⟨fun reqs hh => ?_, fun x s1 reqs hh => ?_⟩
    · simpa using h.1 reqs hh
    · have := h.2 x s1 reqs hh
      simpa using this
  | cons n buf =>
    have hnext : bulkNext oracle ⟨subs, users, n :: buf⟩ =
        (some (n, ⟨subs, users, buf⟩), []) := bulkNext_buf ..
    refine ⟨fun reqs hh => ?_, fun x s1 reqs hh => ?_⟩
    · rw [hnext] at hh
      simp at hh
    · rw [hnext] at hh
      simp only [Prod.mk.injEq, Option.some.injEq] at hh
      obtain ⟨⟨rfl, rfl⟩, rfl⟩ := hh
      simp

/-- The requests issued by `n` advances of the bulk generator are an initial
segment of the full run's request trace: chunks are fetched strictly in
order, and no chunk beyond those needed is ever requested. -/
theorem bulkTake_pfx (oracle : BulkParams → List (Option Note)) :
    ∀ (n : Nat) (s : BulkState),
      (bulkTake oracle s n).2 <+: (bulkAll oracle s.subs s.users).2 := by
  intro n
  induction n with
  | zero =>
    intro s
    exact ⟨_, rfl⟩
  | succ n ih =>
    intro s
    rcases hnext : bulkNext oracle s with ⟨r1, reqs⟩
    cases r1 with
    | none =>
      have := (bulkNext_spec oracle s).1 reqs hnext
      simp only [bulkTake, hnext, this.1]
      exact ⟨[], by simp⟩
    | some xs =>
      obtain ⟨x, s1⟩ := xs
      have hspec := (bulkNext_spec oracle s).2 x s1 reqs hnext
      simp only [bulkTake, hnext]
      obtain ⟨t, ht⟩ := ih s1
      exact ⟨t, by rw [List.append_assoc, ht, hspec.1]⟩

theorem bulkTake_succ_none {oracle : BulkParams → List (Option Note)}
    {s : BulkState} {reqs : List Request}
    (hnext : bulkNext oracle s = (none, reqs)) (n : Nat) :
    bulkTake oracle s (n + 1) = ([], reqs) := by
  simp [bulkTake, hnext]

theorem bulkTake_succ_some {oracle : BulkParams → List (Option Note)}
    {s s1 : BulkState} {x : Option Note} {reqs : List Request}
    (hnext : bulkNext oracle s = (some (x, s1), reqs)) (n : Nat) :
    bulkTake oracle s (n + 1) =
      (x :: (bulkTake oracle s1 n).1, reqs ++ (bulkTake oracle s1 n).2) := by
  simp [bulkTake, hnext]

/-- Advancing the bulk generator once more only appends requests: the traces
grow monotonically, one sequential chunk at a time. -/
theorem bulkTake_mono (oracle : BulkParams → List (Option Note)) :
    ∀ (n : Nat) (s : BulkState),
      (bulkTake oracle s n).2 <+: (bulkTake oracle s (n + 1)).2 := by
  intro n
  induction n with
  | zero =>
    intro s
    exact ⟨_, rfl⟩
  | succ n ih =>
    intro s
    rcases hnext : bulkNext oracle s with ⟨r1, reqs⟩
    cases r1 with
    | none =>
      rw [bulkTake_succ_none hnext n, bulkTake_succ_none hnext (n + 1)]
    | some xs =>
      obtain ⟨x, s1⟩ := xs
      rw [bulkTake_succ_some hnext n, bulkTake_succ_some hnext (n + 1)]
      obtain ⟨t, ht⟩ := ih s1
      exact ⟨t, by rw [List.append_assoc, ht]⟩

/-- When every bulk response is non-empty, one advance issues at most one
request. -/
theorem bulkNext_len_le (oracle : BulkParams → List (Option Note))
    (hne : ∀ p, oracle p ≠ []) (s : BulkState) :
    (bulkNext oracle s).2.length ≤ 1 := by
  obtain ⟨subs, users, buf⟩ := s
  cases buf with
  | nil =>
    rw [bulkNext_empty_buf]
    by_cases hb : subs = [] ∧ users = []
    · simp [hb]
    · rcases ho : oracle ⟨joinComma (subs.take 500), joinComma (users.take 500)⟩
        with _ | ⟨n, ns⟩
      · exact absurd ho (hne _)
      · simp [if_neg hb, ho]
  | cons n buf =>
    rw [bulkNext_buf]
    simp

/-- When every bulk response is non-empty, `n` advances issue at most `n`
requests: consuming a short prefix of a long input fetches few chunks. -/
theorem bulkTake_len_le (oracle : BulkParams → List (Option Note))
    (hne : ∀ p, oracle p ≠ []) :
    ∀ (n : Nat) (s : BulkState), (bulkTake oracle s n).2.length ≤ n := by
  intro n
  induction n with
  | zero =>
    intro s
    simp [bulkTake]
  | succ n ih =>
    intro s
    rcases hnext : bulkNext oracle s with ⟨r1, reqs⟩
    have hr : reqs.length ≤ 1 := by
      have := bulkNext_len_le oracle hne s
      rw [hnext] at this
      exact this
    cases r1 with
    | none =>
      simp only [bulkTake, hnext]
      omega
    | some xs =>
      obtain ⟨x, s1⟩ := xs
      simp only [bulkTake, hnext, List.length_append]
      have := ih s1
      omega

/-- With enough advances the lazy bulk generator performs exactly the full
run: it yields every output and issues every request of `bulkAll`. -/
theorem bulkTake_run (oracle : BulkParams → List (Option Note)) :
    ∀ (n : Nat) (s : BulkState),
      (s.buffer ++ (bulkAll oracle s.subs s.users).1).length ≤ n →
      bulkTake oracle s (n + 1) =
        (s.buffer ++ (bulkAll oracle s.subs s.users).1,
         (bulkAll oracle s.subs s.users).2) := by
  intro n
  induction n with
  | zero =>
    intro s hm
    have hout : s.buffer ++ (bulkAll oracle s.subs s.users).1 = [] :=
      List.length_eq_zero.mp (Nat.le_zero.mp hm)
    rcases hnext : bulkNext oracle s with ⟨r1, reqs⟩
    cases r1 with
    | none =>
      have := (bulkNext_spec oracle s).1 reqs hnext
      simp only [bulkTake, hnext, hout, this.1]
    | some xs =>
      obtain ⟨x, s1⟩ := xs
      have := (bulkNext_spec oracle s).2 x s1 reqs hnext
      rw [hout] at this
      exact absurd this.2.symm (List.cons_ne_nil _ _)
  | succ n ih =>
    intro s hm
    rcases hnext : bulkNext oracle s with ⟨r1, reqs⟩
    cases r1 with
    | none =>
      have := (bulkNext_spec oracle s).1 reqs hnext
      rw [bulkTake_succ_none hnext (n + 1), this.2, this.1]
    | some xs =>
      obtain ⟨x, s1⟩ := xs
      have hspec := (bulkNext_spec oracle s).2 x s1 reqs hnext
      have hlen : (s1.buffer ++ (bulkAll oracle s1.subs s1.users).1).length ≤ n := by
        have := congrArg List.length hspec.2
        simp only [List.length_cons] at this
        omega
      rw [bulkTake_succ_some hnext (n + 1), ih s1 hlen, hspec.2, hspec.1]

/-!
The listing strategy.  `ModNotes._all_generator` (in `src/`) only assembles
the query parameters — `subreddit=subreddit or self.subreddit`,
`user=redditor` — and hands them to the external `ListingGenerator`.
-/

/-- The query parameters `ModNotes._all_generator` passes to the listing
endpoint: `subreddit=subreddit or self.subreddit`, `user=redditor`. -/
def allGeneratorParams (boundSub : Option String) (redditor : String)
    (subreddit : Option String) : ListingParams :=
  ⟨pyOr subreddit boundSub, redditor⟩

/-- Modelled from the spec: the generic paginated-listing primitive
(`ListingGenerator`, not under `src/`) "produces a lazy sequence of decoded
items, internally issuing follow-up requests as the consumer advances, using
server-provided pagination cursors".  The server's successive pages for a
parameter set are given by an oracle `listO : ListingParams → List (List
Note)`; page `i` costs one `Request.listGet params i`.  `listAllFullAux`
is the fully-consumed run from page `idx` on. -/
def listAllFullAux (lp : ListingParams) :
    Nat → List (List Note) → List Note × List Request
  | _, [] => ([], [])
  | idx, pg :: rest =>
    let r := listAllFullAux lp (idx + 1) rest
    (pg ++ r.1, Request.listGet lp idx :: r.2)

/-- Modelled from the spec: full consumption of the lazy listing for
parameters `lp` — all decoded notes in server order, one page request per
page. -/
def listAllFull (listO : ListingParams → List (List Note)) (lp : ListingParams) :
    List Note × List Request :=
  listAllFullAux lp 0 (listO lp)

/-- State of a partially consumed listing: parameters, the pages the server
has not yet sent, the index of the next page request, and the decoded notes
of the current page not yet yielded. -/
structure ListState where
  lp : ListingParams
  pages : List (List Note)
  idx : Nat
  buffer : List Note
deriving DecidableEq, Repr

/-- Creating the listing sequence issues no request and buffers nothing. -/
def mkListGen (listO : ListingParams → List (List Note)) (lp : ListingParams) :
    ListState :=
  ⟨lp, listO lp, 0, []⟩

/-- Modelled from the spec: one advance of the lazy listing.  A buffered
note is yielded without a request; otherwise the next page is requested
(skipping empty pages, one request each) until a note appears or the pages
run out. -/
def listNext : ListState → Option (Note × ListState) × List Request
  | ⟨lp, pages, idx, n :: buf⟩ => (some (n, ⟨lp, pages, idx, buf⟩), [])
  | ⟨_, [], _, []⟩ => (none, [])
  | ⟨lp, [] :: rest, idx, []⟩ =>
    let r := listNext ⟨lp, rest, idx + 1, []⟩
    (r.1, Request.listGet lp idx :: r.2)
  | ⟨lp, (n :: ns) :: rest, idx, []⟩ =>
    (some (n, ⟨lp, rest, idx + 1, ns⟩), [Request.listGet lp idx])
termination_by s => s.pages.length

/-- Advance the lazy listing at most `n` times. -/
def listTake : ListState → Nat → List Note × List Request
  | _, 0 => ([], [])
  | s, n + 1 =>
    match listNext s with
    | (none, reqs) => ([], reqs)
    | (some (x, s1), reqs) =>
      let r := listTake s1 n
      (x :: r.1, reqs ++ r.2)

theorem listNext_buf (lp : ListingParams) (pages : List (List Note)) (idx : Nat)
    (n : Note) (buf : List Note) :
    listNext ⟨lp, pages, idx, n :: buf⟩ = (some (n, ⟨lp, pages, idx, buf⟩), []) := by
  rw [listNext]

theorem listNext_done (lp : ListingParams) (idx : Nat) :
    listNext ⟨lp, [], idx, []⟩ = (none, []) := by
  rw [listNext]

theorem listNext_skip (lp : ListingParams) (rest : List (List Note)) (idx : Nat) :
    listNext ⟨lp, [] :: rest, idx, []⟩ =
      ((listNext ⟨lp, rest, idx + 1, []⟩).1,
       Request.listGet lp idx :: (listNext ⟨lp, rest, idx + 1, []⟩).2) := by
  rw [listNext]

theorem listNext_page (lp : ListingParams) (n : Note) (ns : List Note)
    (rest : List (List Note)) (idx : Nat) :
    listNext ⟨lp, (n :: ns) :: rest, idx, []⟩ =
      (some (n, ⟨lp, rest, idx + 1, ns⟩), [Request.listGet lp idx]) := by
  rw [listNext]

/-- One advance of the lazy listing accounts exactly for the next slice of
the full per-page run. -/
theorem listNext_spec :
    ∀ (s : ListState),
      (∀ reqs, listNext s = (none, reqs) →
        (listAllFullAux s.lp s.idx s.pages).2 = reqs ∧
        s.buffer ++ (listAllFullAux s.lp s.idx s.pages).1 = []) ∧
      (∀ x s1 reqs, listNext s = (some (x, s1), reqs) →
        s1.lp = s.lp ∧
        (listAllFullAux s.lp s.idx s.pages).2 =
          reqs ++ (listAllFullAux s1.lp s1.idx s1.pages).2 ∧
        s.buffer ++ (listAllFullAux s.lp s.idx s.pages).1 =
          x :: (s1.buffer ++ (listAllFullAux s1.lp s1.idx s1.pages).1)) := by
  intro s
  obtain ⟨lp, pages, idx, buf⟩ := s
  cases buf with
  | cons n buf =>
    refine ⟨fun reqs h => ?_, fun x s1 reqs h => ?_⟩
    · rw [listNext_buf] at h
      simp at h
    · rw [listNext_buf] at h
      simp only [Prod.mk.injEq, Option.some.injEq] at h
      obtain ⟨⟨rfl, rfl⟩, rfl⟩ := h
      simp
  | nil =>
    induction pages generalizing idx with
    | nil =>
      refine ⟨fun reqs h => ?_, fun x s1 reqs h => ?_⟩
      · rw [listNext_done] at h
        obtain ⟨-, rfl⟩ := Prod.mk.injEq .. ▸ h
        simp [listAllFullAux]
      · rw [listNext_done] at h
        simp at h
    | cons pg rest ih =>
      cases pg with
      | nil =>
        refine ⟨fun reqs h => ?_, fun x s1 reqs h => ?_⟩
        · rw [listNext_skip] at h
          obtain ⟨h1, rfl⟩ := Prod.mk.injEq .. ▸ h
          have hrec := (ih (idx + 1)).1 _ (Prod.ext h1 rfl)
          simp only [listAllFullAux]
          refine ⟨by simp [hrec.1], by simpa using hrec.2⟩
        · rw [listNext_skip] at h
          obtain ⟨h1, rfl⟩ := Prod.mk.injEq .. ▸ h
          have hrec := (ih (idx + 1)).2 x s1 _ (Prod.ext h1 rfl)
          simp only [listAllFullAux]
          refine ⟨hrec.1, by simp [hrec.2.1], by simpa using hrec.2.2⟩
      | cons n ns =>
        refine ⟨fun reqs h => ?_, fun x s1 reqs h => ?_⟩
        · rw [listNext_page] at h
          simp at h
        · rw [listNext_page] at h
          simp only [Prod.mk.injEq, Option.some.injEq] at h
          obtain ⟨⟨rfl, rfl⟩, rfl⟩ := h
          simp [listAllFullAux]

theorem listTake_succ_none {s : ListState} {reqs : List Request}
    (hnext : listNext s = (none, reqs)) (n : Nat) :
    listTake s (n + 1) = ([], reqs) := by
  simp [listTake, hnext]

theorem listTake_succ_some {s s1 : ListState} {x : Note} {reqs : List Request}
    (hnext : listNext s = (some (x, s1), reqs)) (n : Nat) :
    listTake s (n + 1) = (x :: (listTake s1 n).1, reqs ++ (listTake s1 n).2) := by
  simp [listTake, hnext]

/-- The requests issued by `n` advances of the lazy listing are an initial
segment of the full run's request trace: pages are fetched strictly in
order, and no page beyond those needed is ever requested. -/
theorem listTake_pfx :
    ∀ (n : Nat) (s : ListState),
      (listTake s n).2 <+: (listAllFullAux s.lp s.idx s.pages).2 := by
  intro n
  induction n with
  | zero =>
    intro s
    exact ⟨_, rfl⟩
  | succ n ih =>
    intro s
    rcases hnext : listNext s with ⟨r1, reqs⟩
    cases r1 with
    | none =>
      have := (listNext_spec s).1 reqs hnext
      rw [listTake_succ_none hnext n, this.1]
    | some xs =>
      obtain ⟨x, s1⟩ := xs
      have hspec := (listNext_spec s).2 x s1 reqs hnext
      rw [listTake_succ_some hnext n]
      obtain ⟨t, ht⟩ := ih s1
      exact ⟨t, by rw [List.append_assoc, ht, hspec.2.1]⟩

/-- Advancing the lazy listing once more only appends requests. -/
theorem listTake_mono :
    ∀ (n : Nat) (s : ListState),
      (listTake s n).2 <+: (listTake s (n + 1)).2 := by
  intro n
  induction n with
  | zero =>
    intro s
    exact ⟨_, rfl⟩
  | succ n ih =>
    intro s
    rcases hnext : listNext s with ⟨r1, reqs⟩
    cases r1 with
    | none =>
      rw [listTake_succ_none hnext n, listTake_succ_none hnext (n + 1)]
    | some xs =>
      obtain ⟨x, s1⟩ := xs
      rw [listTake_succ_some hnext n, listTake_succ_some hnext (n + 1)]
      obtain ⟨t, ht⟩ := ih s1
      exact ⟨t, by rw [List.append_assoc, ht]⟩

/-- When every page of the current state is non-empty, one advance issues at
most one request. -/
theorem listNext_len_le (s : ListState) (hne : ∀ pg ∈ s.pages, pg ≠ []) :
    (listNext s).2.length ≤ 1 := by
  obtain ⟨lp, pages, idx, buf⟩ := s
  cases buf with
  | cons n buf =>
    rw [listNext_buf]
    simp
  | nil =>
    cases pages with
    | nil =>
      rw [listNext_done]
      simp
    | cons pg rest =>
      cases pg with
      | nil => exact absurd rfl (hne [] (by simp))
      | cons n ns =>
        rw [listNext_page]
        simp

/-- When every page is non-empty, `n` advances of the lazy listing issue at
most `n` requests. -/
theorem listTake_len_le :
    ∀ (n : Nat) (s : ListState), (∀ pg ∈ s.pages, pg ≠ []) →
      (listTake s n).2.length ≤ n := by
  intro n
  induction n with
  | zero =>
    intro s hne
    simp [listTake]
  | succ n ih =>
    intro s hne
    rcases hnext : listNext s with ⟨r1, reqs⟩
    have hr : reqs.length ≤ 1 := by
      have := listNext_len_le s hne
      rw [hnext] at this
      exact this
    cases r1 with
    | none =>
      rw [listTake_succ_none hnext n]
      have : (([], reqs) : List Note × List Request).2.length = reqs.length := rfl
      omega
    | some xs =>
      obtain ⟨x, s1⟩ := xs
      have hsub : ∀ pg ∈ s1.pages, pg ≠ [] := by
        intro pg hpg
        refine hne pg ?_
        obtain ⟨lp, pages, idx, buf⟩ := s
        cases buf with
        | cons m buf =>
          rw [listNext_buf] at hnext
          simp only [Prod.mk.injEq, Option.some.injEq] at hnext
          obtain ⟨⟨rfl, rfl⟩, rfl⟩ := hnext
          exact hpg
        | nil =>
          cases pages with
          | nil =>
            rw [listNext_done] at hnext
            simp at hnext
          | cons pg1 rest =>
            cases pg1 with
            | nil => exact absurd rfl (hne [] (by simp))
            | cons m ms =>
              rw [listNext_page] at hnext
              simp only [Prod.mk.injEq, Option.some.injEq] at hnext
              obtain ⟨⟨rfl, rfl⟩, rfl⟩ := hnext
              exact List.mem_cons_of_mem _ hpg
      rw [listTake_succ_some hnext n]
      simp only [List.length_append]
      have := ih s1 hsub
      omega

/-!
The polymorphic dispatcher `ModNotes.__call__` (a `singledispatchmethod`)
and its registers.
-/

/-- Error message of the str/Redditor register and of the bare-string branch
of the iterable register. -/
def configMsg : String :=
  "`subreddit` must be provided if `ModNotes.subreddit` is not set."

/-- Error message of the iterable register's unsupported-element branch
(`f"Cannot get subreddit and user fields from type {type(subreddit_user)}"`). -/
def typeMsg (t : String) : String :=
  "Cannot get subreddit and user fields from type " ++ t

/-- Error message of the fallback register
(`f"Getting notes for type {type(items)} is not supported."`). -/
def fallbackMsg (t : String) : String :=
  "Getting notes for type " ++ t ++ " is not supported."

/-- The first element of an explicit tuple: either a `Subreddit` object
(resolved through `.display_name`) or a raw value (appended as is). -/
inductive SubRef where
  | obj (displayName : String)
  | name (s : String)
deriving DecidableEq, Repr

def SubRef.resolve : SubRef → String
  | .obj d => d
  | .name s => s

/-- The second element of an explicit tuple: either a `Redditor` object
(resolved through `.name`) or a raw value (appended as is). -/
inductive RedRef where
  | obj (n : String)
  | name (s : String)
deriving DecidableEq, Repr

def RedRef.resolve : RedRef → String
  | .obj n => n
  | .name s => s

/-- One element of the iterable passed to the iterable register:
a `Comment`/`Submission` (carrying `.subreddit.display_name` and
`.author.name`), an explicit `(subreddit, user)` tuple, a bare username
string, or an element of any other runtime type (carrying that type's
name for the error message). -/
inductive IterItem where
  | thing (subreddit author : String)
  | pair (sub : SubRef) (user : RedRef)
  | str (u : String)
  | other (typeName : String)
deriving DecidableEq, Repr

/-- The resolution loop of the iterable register
(`mod_notes.py` lines 187-212): builds the parallel `subreddits`/`users`
lists, raising on a bare username without a resolvable subreddit and on an
element of unsupported type. -/
def resolvePairs (explicitSub boundSub : Option String) :
    List IterItem → Except String (List String × List String)
  | [] => Except.ok ([], [])
  | IterItem.thing s a :: rest =>
    (resolvePairs explicitSub boundSub rest).map fun r => (s :: r.1, a :: r.2)
  | IterItem.pair sr ur :: rest =>
    (resolvePairs explicitSub boundSub rest).map fun r =>
      (sr.resolve :: r.1, ur.resolve :: r.2)
  | IterItem.str u :: rest =>
    match pyOr explicitSub boundSub with
    | none => Except.error configMsg
    | some s =>
      (resolvePairs explicitSub boundSub rest).map fun r => (s :: r.1, u :: r.2)
  | IterItem.other t :: _ => Except.error (typeMsg t)

/-- The generator object returned by the iterable register.  The register is
itself a generator function (its body contains `yield from`), so calling it
merely packages its arguments; none of the body — in particular none of the
resolution loop — runs until the first advance. -/
structure IterGen where
  boundSub : Option String
  explicitSub : Option String
  items : List IterItem
  allNotes : Bool
deriving DecidableEq, Repr

/-- Calling `ModNotes.__call__` with an iterable: creates the generator and
returns it; no code of the register body runs, no request is issued, no
error can be raised at call time. -/
def callIterable (boundSub : Option String) (items : List IterItem)
    (allNotes : Bool) (subreddit : Option String) : IterGen :=
  ⟨boundSub, subreddit, items, allNotes⟩

/-- Full consumption of the iterable register's generator: resolution
(errors propagate with no request issued), then either one listing per pair
concatenated in pair order (`all_notes=True`) or a single chained bulk run
(`all_notes=False`). -/
def iterRunAll (bulkO : BulkParams → List (Option Note))
    (listO : ListingParams → List (List Note)) (g : IterGen) :
    Except String (List (Option Note)) × List Request :=
  match resolvePairs g.explicitSub g.boundSub g.items with
  | Except.error e => (Except.error e, [])
  | Except.ok (subs, users) =>
    if g.allNotes then
      let runs := (users.zip subs).map fun p =>
        listAllFull listO (allGeneratorParams g.boundSub p.1 (some p.2))
      (Except.ok ((runs.map fun r => r.1.map some).flatten),
       (runs.map fun r => r.2).flatten)
    else
      let r := bulkAll bulkO subs users
      (Except.ok r.1, r.2)

/-- First advance through the listings of successive pairs
(`all_notes=True` path of the iterable register): advance the current
pair's listing; while it is immediately exhausted, move to the next pair. -/
def firstFromListings (listO : ListingParams → List (List Note))
    (boundSub : Option String) : List (String × String) → Option Note × List Request
  | [] => (none, [])
  | (u, s) :: rest =>
    let r := listNext (mkListGen listO (allGeneratorParams boundSub u (some s)))
    match r.1 with
    | some (n, _) => (some n, r.2)
    | none =>
      let r2 := firstFromListings listO boundSub rest
      (r2.1, r.2 ++ r2.2)

/-- First advance of the iterable register's generator: runs the resolution
loop (raising its errors now, with no request issued), then draws the first
element from the chosen strategy.  `Except.ok none` is `StopIteration`. -/
def iterAdvance1 (bulkO : BulkParams → List (Option Note))
    (listO : ListingParams → List (List Note)) (g : IterGen) :
    Except String (Option (Option Note)) × List Request :=
  match resolvePairs g.explicitSub g.boundSub g.items with
  | Except.error e => (Except.error e, [])
  | Except.ok (subs, users) =>
    if g.allNotes then
      let r := firstFromListings listO g.boundSub (users.zip subs)
      (Except.ok (r.1.map some), r.2)
    else
      let r := bulkNext bulkO (mkBulkGen subs users)
      (Except.ok (r.1.map fun x => x.1), r.2)

/-- The str/`Redditor` register of `ModNotes.__call__`, fully consumed.
Raises the configuration error at call time (with no request) when neither
the explicit `subreddit` nor the bound one is truthy; otherwise runs the
listing (`all_notes=True`, the default) or a one-pair bulk lookup. -/
def callStrRun (bulkO : BulkParams → List (Option Note))
    (listO : ListingParams → List (List Note)) (boundSub : Option String)
    (redditor : String) (allNotes : Bool) (subreddit : Option String) :
    Except String (List (Option Note)) × List Request :=
  if pyFalsy subreddit && boundSub.isNone then (Except.error configMsg, [])
  else if allNotes then
    let r := listAllFull listO (allGeneratorParams boundSub redditor (pyOr subreddit boundSub))
    (Except.ok (r.1.map some), r.2)
  else
    let r := bulkAll bulkO [pyStr (pyOr subreddit boundSub)] [redditor]
    (Except.ok r.1, r.2)

/-!
`ModNotes.create` and `ModNotes.delete`, plus `ModNote.delete`.
-/

/-- A `Comment` or `Submission` as `create` reads it: its subreddit, its
author, and its fullname. -/
structure Thing where
  subreddit : String
  author : String
  fullname : String
deriving DecidableEq, Repr

/-- The `data` dictionary `ModNotes.create` posts to `API_PATH["mod_notes"]`:
`user`, `subreddit`, `note` always; `label` only when truthy; `thing` only
when given (as `str(thing.fullname)`); then `data.update(other_settings)`. -/
structure CreateData where
  user : String
  subreddit : String
  note : String
  label : Option String
  thing : Option String
  extra : List (String × String)
deriving DecidableEq, Repr

/-- Error raised by `create` when no subreddit resolves. -/
def subThingMsg : String := "`subreddit` or `thing` must be provided."

/-- Error raised by `create` when no redditor resolves. -/
def redThingMsg : String := "`redditor` or `thing` must be provided."

/-- `ModNotes.create`: resolves the subreddit (explicit truthy param, else
`thing.subreddit`, else the bound subreddit, else raise), then the redditor
(explicit truthy param, else `thing.author`, else raise), posts the data and
returns the objectified response (`postO data`). -/
def createRun (postO : CreateData → Note) (boundSub : Option String)
    (label : Option String) (note : String) (redditor : Option String)
    (subreddit : Option String) (thing : Option Thing)
    (extra : List (String × String)) : Except String Note := do
  let sub ←
    if pyFalsy subreddit then
      match thing with
      | some t => Except.ok t.subreddit
      | none =>
        match boundSub with
        | some b => Except.ok b
        | none => Except.error subThingMsg
    else Except.ok (subreddit.getD "")
  let red ←
    if pyFalsy redditor then
      match thing with
      | some t => Except.ok t.author
      | none => Except.error redThingMsg
    else Except.ok (redditor.getD "")
  Except.ok (postO
    ⟨red, sub, note, if pyFalsy label then none else label,
      thing.map Thing.fullname, extra⟩)

/-- Error raised by `ModNotes.delete` when exactly one of `redditor` and
`note_id` is `None` without `delete_all`. -/
def deleteArgMsg : String :=
  "Either `redditor` and `note_id`, or `redditor` and `delete_all` must be provided."

/-- `ModNote.delete`: one deletion request keyed by the record's own
`user`, `subreddit` and `id` fields. -/
def noteDeleteRequest (nt : Note) : Request :=
  Request.del nt.user nt.subreddit (some nt.id)

/-- `ModNotes.delete`, returning the trace of issued requests (every raise
happens before any request is issued).  With `delete_all`, `self(redditor)`
dispatches: `None` hits the fallback register (type error), a redditor with
no bound subreddit hits the configuration error, else the listing is fully
consumed and each note deleted via `ModNote.delete`.  Exactly one of
`(redditor, note_id)` being `None` without `delete_all` raises the argument
error.  In every non-raising path, the final `params`/`self._reddit.delete`
block runs unconditionally: it is not guarded by an `else`, so it executes
after the `delete_all` loop as well. -/
def deleteRun (listO : ListingParams → List (List Note)) (boundSub : Option String)
    (deleteAll : Bool) (noteId : Option String) (redditor : Option String) :
    Except String (List Request) := do
  let pre ←
    if deleteAll then
      match redditor with
      | none => Except.error (fallbackMsg "NoneType")
      | some r =>
        -- `self(redditor)` with defaults: str/Redditor register, no explicit
        -- subreddit, `all_notes=True`
        if pyFalsy none && boundSub.isNone then Except.error configMsg
        else
          let run := listAllFull listO (allGeneratorParams boundSub r (pyOr none boundSub))
          Except.ok (run.2 ++ run.1.map noteDeleteRequest)
    else
      if redditor.isNone != noteId.isNone then Except.error deleteArgMsg
      else Except.ok []
  Except.ok (pre ++ [Request.del (pyStr redditor) (pyStr boundSub) noteId])

/-!
Characterisation of the full bulk run by aligned 500-chunks.
-/

/-- The bulk request parameters of the full run: the `i`-th request joins
the `i`-th 500-chunk of each input — chunk boundaries are aligned between
the two sequences. -/
def bulkParamsList (subs users : List String) : List BulkParams :=
  List.zipWith (fun a b => BulkParams.mk (joinComma a) (joinComma b))
    (chunks500 subs) (chunks500 users)

theorem zipWith_getD {α β γ : Type} (f : α → β → γ) (d1 : α) (d2 : β) :
    ∀ (as : List α) (bs : List β) (i : Nat), i < (List.zipWith f as bs).length →
      (List.zipWith f as bs).getD i (f d1 d2) = f (as.getD i d1) (bs.getD i d2) := by
  intro as
  induction as with
  | nil =>
    intro bs i hi
    simp at hi
  | cons a as ih =>
    intro bs i hi
    cases bs with
    | nil => simp at hi
    | cons b bs =>
      cases i with
      | zero => simp
      | succ i =>
        simp only [List.zipWith_cons_cons, List.length_cons] at hi
        simpa using ih bs i (by omega)

/-- The `i`-th bulk request carries the comma-joined slices of both inputs
starting at offset `500 * i`. -/
theorem bulkParamsList_getD (subs users : List String) (i : Nat)
    (hi : i < (bulkParamsList subs users).length) :
    (bulkParamsList subs users).getD i ⟨joinComma [], joinComma []⟩ =
      ⟨joinComma ((subs.drop (500 * i)).take 500),
        joinComma ((users.drop (500 * i)).take 500)⟩ := by
  unfold bulkParamsList at hi ⊢
  rw [zipWith_getD (fun a b => BulkParams.mk (joinComma a) (joinComma b)) [] []
    (chunks500 subs) (chunks500 users) i hi]
  rw [chunks500_getD, chunks500_getD]

theorem bulkAll_eq_aux (oracle : BulkParams → List (Option Note)) :
    ∀ (n : Nat) (subs users : List String), subs.length ≤ n →
      subs.length = users.length →
      bulkAll oracle subs users =
        (((bulkParamsList subs users).map oracle).flatten,
         (bulkParamsList subs users).map Request.bulkGet) := by
  intro n
  induction n with
  | zero =>
    intro subs users hn h
    have hs : subs = [] := List.length_eq_zero.mp (by omega)
    have hu : users = [] := List.length_eq_zero.mp (by omega)
    subst hs; subst hu
    simp [bulkAll_nil, bulkParamsList, chunks500_nil]
  | succ n ih =>
    intro subs users hn h
    by_cases hs : subs = []
    · have hu : users = [] := List.length_eq_zero.mp (by rw [← h, hs]; rfl)
      subst hs; subst hu
      simp [bulkAll_nil, bulkParamsList, chunks500_nil]
    · have hu : users ≠ [] := by
        intro hc
        rw [hc] at h
        exact hs (List.length_eq_zero.mp h)
      have hb : ¬(subs = [] ∧ users = []) := fun hc => hs hc.1
      have hlen : 0 < subs.length := List.length_pos.mpr hs
      have hrec := ih (subs.drop 500) (users.drop 500)
        (by simp only [List.length_drop]; omega)
        (by simp only [List.length_drop]; omega)
      rw [bulkAll_step oracle hb, hrec]
      unfold bulkParamsList
      rw [chunks500_cons hs, chunks500_cons hu]
      simp

/-- The full bulk run, for equal-length inputs: outputs are the per-chunk
responses concatenated in chunk order, requests are exactly the aligned
chunk parameters. -/
theorem bulkAll_eq (oracle : BulkParams → List (Option Note))
    (subs users : List String) (h : subs.length = users.length) :
    bulkAll oracle subs users =
      (((bulkParamsList subs users).map oracle).flatten,
       (bulkParamsList subs users).map Request.bulkGet) :=
  bulkAll_eq_aux oracle subs.length subs users (Nat.le_refl _) h

/-!
Behaviour of the iterable register's resolution loop.
-/

/-- A list of explicit tuples resolves without error into the two parallel
identifier lists, in input order. -/
theorem resolvePairs_pairs (e b : Option String) :
    ∀ (prs : List (SubRef × RedRef)),
      resolvePairs e b (prs.map fun pr => IterItem.pair pr.1 pr.2) =
        Except.ok (prs.map fun pr => pr.1.resolve, prs.map fun pr => pr.2.resolve) := by
  intro prs
  induction prs with
  | nil => rfl
  | cons pr prs ih =>
    simp only [List.map_cons, resolvePairs, ih, Except.map]

/-- If the iterable contains an element of unsupported type, resolution
fails with some error. -/
theorem resolvePairs_err_of_other (e b : Option String) :
    ∀ (items : List IterItem), (∃ t, IterItem.other t ∈ items) →
      ∃ msg, resolvePairs e b items = Except.error msg := by
  intro items
  induction items with
  | nil =>
    rintro ⟨t, ht⟩
    simp at ht
  | cons x rest ih =>
    rintro ⟨t, ht⟩
    cases x with
    | thing s a =>
      have hmem : IterItem.other t ∈ rest := by
        rcases List.mem_cons.mp ht with hc | hc
        · exact absurd hc (by simp)
        · exact hc
      obtain ⟨msg, hmsg⟩ := ih ⟨t, hmem⟩
      exact ⟨msg, by simp [resolvePairs, hmsg, Except.map]⟩
    | pair sr ur =>
      have hmem : IterItem.other t ∈ rest := by
        rcases List.mem_cons.mp ht with hc | hc
        · exact absurd hc (by simp)
        · exact hc
      obtain ⟨msg, hmsg⟩ := ih ⟨t, hmem⟩
      exact ⟨msg, by simp [resolvePairs, hmsg, Except.map]⟩
    | str u =>
      have hmem : IterItem.other t ∈ rest := by
        rcases List.mem_cons.mp ht with hc | hc
        · exact absurd hc (by simp)
        · exact hc
      rcases ho : pyOr e b with _ | s
      · exact ⟨configMsg, by simp [resolvePairs, ho]⟩
      · obtain ⟨msg, hmsg⟩ := ih ⟨t, hmem⟩
        exact ⟨msg, by simp [resolvePairs, ho, hmsg, Except.map]⟩
    | other t1 => exact ⟨typeMsg t1, by simp [resolvePairs]⟩

/-- If the first offending element of the iterable is one of unsupported
type (no earlier element is unsupported, and — when no subreddit is
resolvable — no earlier element is a bare string), resolution fails with
the type error naming that element's type. -/
theorem resolvePairs_first_other (e b : Option String) (t : String) :
    ∀ (pre post : List IterItem),
      (∀ x ∈ pre, ∀ t1, x ≠ IterItem.other t1) →
      (pyOr e b = none → ∀ x ∈ pre, ∀ u, x ≠ IterItem.str u) →
      resolvePairs e b (pre ++ IterItem.other t :: post) =
        Except.error (typeMsg t) := by
  intro pre
  induction pre with
  | nil =>
    intro post hother hstr
    simp [resolvePairs]
  | cons x pre ih =>
    intro post hother hstr
    have hrec := ih post (fun y hy => hother y (List.mem_cons_of_mem x hy))
      (fun hn y hy => hstr hn y (List.mem_cons_of_mem x hy))
    cases x with
    | thing s a => simp [resolvePairs, hrec, Except.map]
    | pair sr ur => simp [resolvePairs, hrec, Except.map]
    | str u =>
      rcases ho : pyOr e b with _ | s
      · exact absurd rfl (hstr ho (IterItem.str u) (List.mem_cons_self ..) u)
      · simp [resolvePairs, ho, hrec, Except.map]
    | other t1 => exact absurd rfl (hother (IterItem.other t1) (List.mem_cons_self ..) t1)

/-- If no subreddit is resolvable and the iterable contains a bare string,
resolution fails with some error. -/
theorem resolvePairs_err_of_str (e b : Option String) (hn : pyOr e b = none) :
    ∀ (items : List IterItem), (∃ u, IterItem.str u ∈ items) →
      ∃ msg, resolvePairs e b items = Except.error msg := by
  intro items
  induction items with
  | nil =>
    rintro ⟨u, hu⟩
    simp at hu
  | cons x rest ih =>
    rintro ⟨u, hu⟩
    cases x with
    | thing s a =>
      have hmem : IterItem.str u ∈ rest := by
        rcases List.mem_cons.mp hu with hc | hc
        · exact absurd hc (by simp)
        · exact hc
      obtain ⟨msg, hmsg⟩ := ih ⟨u, hmem⟩
      exact ⟨msg, by simp [resolvePairs, hmsg, Except.map]⟩
    | pair sr ur =>
      have hmem : IterItem.str u ∈ rest := by
        rcases List.mem_cons.mp hu with hc | hc
        · exact absurd hc (by simp)
        · exact hc
      obtain ⟨msg, hmsg⟩ := ih ⟨u, hmem⟩
      exact ⟨msg, by simp [resolvePairs, hmsg, Except.map]⟩
    | str u1 => exact ⟨configMsg, by simp [resolvePairs, hn]⟩
    | other t => exact ⟨typeMsg t, by simp [resolvePairs]⟩

/-- If no subreddit is resolvable and the first offending element of the
iterable is a bare string (no earlier element is of unsupported type),
resolution fails with the configuration error. -/
theorem resolvePairs_first_str (e b : Option String) (hn : pyOr e b = none)
    (u : String) :
    ∀ (pre post : List IterItem),
      (∀ x ∈ pre, ∀ t1, x ≠ IterItem.other t1) →
      resolvePairs e b (pre ++ IterItem.str u :: post) =
        Except.error configMsg := by
  intro pre
  induction pre with
  | nil =>
    intro post hother
    simp [resolvePairs, hn]
  | cons x pre ih =>
    intro post hother
    have hrec := ih post (fun y hy => hother y (List.mem_cons_of_mem x hy))
    cases x with
    | thing s a => simp [resolvePairs, hrec, Except.map]
    | pair sr ur => simp [resolvePairs, hrec, Except.map]
    | str u1 => simp [resolvePairs, hn]
    | other t1 => exact absurd rfl (hother (IterItem.other t1) (List.mem_cons_self ..) t1)

/-- A non-empty input of at most 500 pairs is a single chunk: the full bulk
run issues exactly one request carrying both whole lists. -/
theorem bulkAll_single (oracle : BulkParams → List (Option Note))
    (subs users : List String) (h1 : subs ≠ []) (hl : subs.length = users.length)
    (h2 : subs.length ≤ 500) :
    bulkAll oracle subs users =
      (oracle ⟨joinComma subs, joinComma users⟩,
       [Request.bulkGet ⟨joinComma subs, joinComma users⟩]) := by
  have h2u : users.length ≤ 500 := by omega
  rw [bulkAll_step oracle (fun hc => h1 hc.1)]
  rw [List.take_of_length_le h2, List.take_of_length_le h2u,
    List.drop_eq_nil_of_le h2, List.drop_eq_nil_of_le h2u, bulkAll_nil]
  simp

/-!
Concrete fixtures used by witnesses and counterexamples.
-/

/-- A sample decoded note. -/
def noteA : Note := ⟨"spez", "redditdev", "n1"⟩

/-- A sample bulk oracle: every bulk request returns one note. -/
def oracleW : BulkParams → List (Option Note) := fun _ => [some noteA]

/-- A sample listing oracle: every listing has one page of one note. -/
def listOW : ListingParams → List (List Note) := fun _ => [[noteA]]

/-- A sample creation oracle. -/
def postOW : CreateData → Note := fun _ => noteA

/-!
The claims.
-/

/-- C1: for equal-length inputs of N (subreddit, user) identifiers, fully
consuming the bulk generator issues exactly `ceil(N/500)` requests; the
`i`-th request carries the comma-joined aligned slices of both inputs at
offset `500*i`, each of at most 500 pairs; the concatenated output is the
per-chunk responses in chunk order, so input order is preserved across chunk
boundaries; for N = 0 there are zero requests and no output; and the lazy
generator, fully consumed, performs exactly this run. -/
theorem c1_bulk_chunking (oracle : BulkParams → List (Option Note))
    (subs users : List String) (h : subs.length = users.length) :
    (bulkAll oracle subs users).2 = (bulkParamsList subs users).map Request.bulkGet
    ∧ (bulkAll oracle subs users).2.length = (subs.length + 499) / 500
    ∧ (∀ i, i < (bulkParamsList subs users).length →
        (bulkParamsList subs users).getD i ⟨joinComma [], joinComma []⟩ =
          ⟨joinComma ((subs.drop (500 * i)).take 500),
            joinComma ((users.drop (500 * i)).take 500)⟩
        ∧ ((subs.drop (500 * i)).take 500).length ≤ 500
        ∧ ((users.drop (500 * i)).take 500).length =
            ((subs.drop (500 * i)).take 500).length)
    ∧ (bulkAll oracle subs users).1 = ((bulkParamsList subs users).map oracle).flatten
    ∧ (subs = [] → bulkAll oracle subs users = ([], []))
    ∧ bulkTake oracle (mkBulkGen subs users) ((bulkAll oracle subs users).1.length + 1) =
        bulkAll oracle subs users := by
  have heq := bulkAll_eq oracle subs users h
  refine ⟨by rw [heq], ?_, ?_, by rw [heq], ?_, ?_⟩
  · rw [heq]
    simp only [List.length_map]
    unfold bulkParamsList
    rw [List.length_zipWith, chunks500_length, chunks500_length, ← h, Nat.min_self]
  · intro i hi
    refine ⟨bulkParamsList_getD subs users i hi, ?_, ?_⟩
    · simp only [List.length_take]
      omega
    · simp only [List.length_take, List.length_drop]
      omega
  · intro hs
    have hu : users = [] := List.length_eq_zero.mp (by rw [← h, hs]; rfl)
    subst hs; subst hu
    exact bulkAll_nil oracle
  · have := bulkTake_run oracle (bulkAll oracle subs users).1.length (mkBulkGen subs users)
      (by simp [mkBulkGen])
    simpa [mkBulkGen] using this

/-- Witness for C1 at subs = `["a","b"]`, users = `["x","y"]`. -/
theorem c1_bulk_chunking_witness :
    (bulkAll oracleW ["a", "b"] ["x", "y"]).2.length = 1 :=
  ((c1_bulk_chunking oracleW ["a", "b"] ["x", "y"] rfl).2.1).trans (by norm_num)

/-- C8: both fetchers are lazy.  Creating a sequence and advancing it zero
times issues no request; the requests of `n` advances form an initial
segment of the full trace (chunks/pages are fetched strictly sequentially,
and abandoning iteration leaves every later chunk/page unfetched), the
trace grows monotonically with consumption, and — when responses are
non-empty — `n` advances cost at most `n` requests. -/
theorem c8_lazy (bulkO : BulkParams → List (Option Note))
    (listO : ListingParams → List (List Note)) (subs users : List String)
    (lp : ListingParams) (n : Nat) :
    bulkTake bulkO (mkBulkGen subs users) 0 = ([], [])
    ∧ listTake (mkListGen listO lp) 0 = ([], [])
    ∧ (bulkTake bulkO (mkBulkGen subs users) n).2 <+: (bulkAll bulkO subs users).2
    ∧ (bulkTake bulkO (mkBulkGen subs users) n).2 <+:
        (bulkTake bulkO (mkBulkGen subs users) (n + 1)).2
    ∧ (listTake (mkListGen listO lp) n).2 <+: (listAllFull listO lp).2
    ∧ (listTake (mkListGen listO lp) n).2 <+: (listTake (mkListGen listO lp) (n + 1)).2
    ∧ ((∀ p, bulkO p ≠ []) → (bulkTake bulkO (mkBulkGen subs users) n).2.length ≤ n)
    ∧ ((∀ pg ∈ listO lp, pg ≠ []) → (listTake (mkListGen listO lp) n).2.length ≤ n) := by
  refine ⟨rfl, rfl, ?_, bulkTake_mono bulkO n _, ?_, listTake_mono n _, ?_, ?_⟩
  · exact bulkTake_pfx bulkO n (mkBulkGen subs users)
  · exact listTake_pfx n (mkListGen listO lp)
  · intro hne
    exact bulkTake_len_le bulkO hne n _
  · intro hne
    exact listTake_len_le n (mkListGen listO lp) hne

/-- Witness for C8 with singleton inputs and non-empty responses. -/
theorem c8_lazy_witness :
    (bulkTake oracleW (mkBulkGen ["a"] ["x"]) 1).2.length ≤ 1
    ∧ (listTake (mkListGen listOW ⟨some "redditdev", "spez"⟩) 1).2.length ≤ 1 :=
  ⟨(c8_lazy oracleW listOW ["a"] ["x"] ⟨some "redditdev", "spez"⟩ 1).2.2.2.2.2.2.1
      (fun p => by simp [oracleW]),
   (c8_lazy oracleW listOW ["a"] ["x"] ⟨some "redditdev", "spez"⟩ 1).2.2.2.2.2.2.2
      (fun pg hpg => by
        simp only [listOW, List.mem_singleton] at hpg
        subst hpg
        simp)⟩

/-- The iterable made of explicit tuples only. -/
def pairItems (prs : List (SubRef × RedRef)) : List IterItem :=
  prs.map fun pr => IterItem.pair pr.1 pr.2

/-- The single bulk request covering a list of explicit tuples: both
identifier lists resolved in input order and comma-joined. -/
def pairsReq (prs : List (SubRef × RedRef)) : BulkParams :=
  ⟨joinComma (prs.map fun pr => pr.1.resolve),
   joinComma (prs.map fun pr => pr.2.resolve)⟩

/-- C2 (amended: the pair count must be at least 1 — an empty iterable
issues zero requests, see the counterexample): dispatching an iterable of
1 to 500 explicit (subreddit, user) tuples with `all_notes=False` issues
exactly one bulk request covering all resolved pairs in input order, yields
exactly the response entries in order, and — when the server answers with
one entry per requested pair — yields exactly one result (note or absent
marker) per input pair. -/
theorem c2_iterable_pairs (bulkO : BulkParams → List (Option Note))
    (listO : ListingParams → List (List Note)) (b e : Option String)
    (prs : List (SubRef × RedRef)) (h1 : prs ≠ []) (h2 : prs.length ≤ 500) :
    (iterRunAll bulkO listO (callIterable b (pairItems prs) false e)).2 =
      [Request.bulkGet (pairsReq prs)]
    ∧ (iterRunAll bulkO listO (callIterable b (pairItems prs) false e)).1 =
        Except.ok (bulkO (pairsReq prs))
    ∧ ((bulkO (pairsReq prs)).length = prs.length →
        ∃ outs, (iterRunAll bulkO listO (callIterable b (pairItems prs) false e)).1 =
          Except.ok outs ∧ outs.length = prs.length) := by
  have hres := resolvePairs_pairs e b prs
  have hlen : (prs.map fun pr => pr.1.resolve).length =
      (prs.map fun pr => pr.2.resolve).length := by
    simp
  have hne : (prs.map fun pr => pr.1.resolve) ≠ [] := by
    simpa using h1
  have hle : (prs.map fun pr => pr.1.resolve).length ≤ 500 := by
    simpa using h2
  have hsingle := bulkAll_single bulkO (prs.map fun pr => pr.1.resolve)
    (prs.map fun pr => pr.2.resolve) hne hlen hle
  have hrun : iterRunAll bulkO listO (callIterable b (pairItems prs) false e) =
      (Except.ok (bulkO (pairsReq prs)), [Request.bulkGet (pairsReq prs)]) := by
    simp only [iterRunAll, callIterable, pairItems, hres, if_neg (Bool.false_ne_true),
      Bool.false_eq_true, if_false, hsingle, pairsReq]
  refine ⟨by rw [hrun], by rw [hrun], fun hresp => ⟨bulkO (pairsReq prs), by rw [hrun], hresp⟩⟩

/-- Witness for C2 at one explicit tuple. -/
theorem c2_iterable_pairs_witness :
    (iterRunAll oracleW listOW
        (callIterable none (pairItems [(SubRef.name "redditdev", RedRef.name "spez")])
          false none)).2 =
      [Request.bulkGet (pairsReq [(SubRef.name "redditdev", RedRef.name "spez")])] :=
  (c2_iterable_pairs oracleW listOW none none
    [(SubRef.name "redditdev", RedRef.name "spez")] (by simp) (by simp)).1

/-- Counterexample to C2 as stated: for the empty iterable of tuples (pair
count 0, which is at most 500) the dispatcher issues zero bulk requests, not
exactly one. -/
theorem c2_counterexample :
    (iterRunAll oracleW listOW (callIterable none (pairItems []) false none)).2 = []
    ∧ (iterRunAll oracleW listOW (callIterable none (pairItems []) false none)).2.length ≠ 1 := by
  have hrun : iterRunAll oracleW listOW (callIterable none (pairItems []) false none) =
      (Except.ok [], []) := by
    simp [iterRunAll, callIterable, pairItems, resolvePairs, bulkAll_nil]
  rw [hrun]
  simp

/-- C3 (amended: when an earlier element is a bare string and no subreddit
is resolvable, the configuration error preempts the type error — see the
counterexample): an iterable containing an element of unsupported type
always fails on first advance with some error and issues no request; and
when the unsupported element is the first offender, the error is the type
error naming that element's type. -/
theorem c3_unsupported (bulkO : BulkParams → List (Option Note))
    (listO : ListingParams → List (List Note)) (e b : Option String)
    (allN : Bool) (items : List IterItem) (h : ∃ t, IterItem.other t ∈ items) :
    (∃ msg, iterAdvance1 bulkO listO (callIterable b items allN e) =
      (Except.error msg, []))
    ∧ (∀ pre t post, items = pre ++ IterItem.other t :: post →
        (∀ x ∈ pre, ∀ t1, x ≠ IterItem.other t1) →
        (pyOr e b = none → ∀ x ∈ pre, ∀ u, x ≠ IterItem.str u) →
        iterAdvance1 bulkO listO (callIterable b items allN e) =
          (Except.error (typeMsg t), [])) := by
  constructor
  · obtain ⟨msg, hmsg⟩ := resolvePairs_err_of_other e b items h
    exact ⟨msg, by simp [iterAdvance1, callIterable, hmsg]⟩
  · intro pre t post hitems hother hstr
    subst hitems
    have := resolvePairs_first_other e b t pre post hother hstr
    simp [iterAdvance1, callIterable, this]

/-- Witness for C3: an unsupported element after a supported one raises the
type error naming its type, before any request. -/
theorem c3_unsupported_witness :
    iterAdvance1 oracleW listOW
        (callIterable none [IterItem.thing "redditdev" "spez", IterItem.other "int"]
          false none) =
      (Except.error (typeMsg "int"), []) :=
  (c3_unsupported oracleW listOW none none false
      [IterItem.thing "redditdev" "spez", IterItem.other "int"]
      ⟨"int", by simp⟩).2
    [IterItem.thing "redditdev" "spez"] "int" [] rfl
    (by
      intro x hx t1
      simp only [List.mem_singleton] at hx
      subst hx
      simp)
    (by
      intro hn x hx u
      simp only [List.mem_singleton] at hx
      subst hx
      simp)

/-- Counterexample to C3 as stated: with no resolvable subreddit, an
iterable whose unsupported element is preceded by a bare string fails with
the configuration error, not with a type error naming the offending
element's type. -/
theorem c3_counterexample :
    iterAdvance1 oracleW listOW
        (callIterable none [IterItem.str "alice", IterItem.other "int"] false none) =
      (Except.error configMsg, [])
    ∧ configMsg ≠ typeMsg "int" := by
  constructor
  · simp [iterAdvance1, callIterable, resolvePairs, pyOr]
  · decide

/-- C4 (amended: inside an iterable, an earlier element of unsupported type
raises the type error before the bare string is reached — see the
counterexample): a bare user identifier with neither an explicit nor a
bound subreddit fails before any request: at call time with the
configuration error in the str/Redditor register; on first advance in the
iterable register — with the configuration error whenever no earlier
element is of unsupported type. -/
theorem c4_no_subreddit (bulkO : BulkParams → List (Option Note))
    (listO : ListingParams → List (List Note)) (r : String) (allN : Bool)
    (bound sub : Option String) (e b1 : Option String) (items : List IterItem) :
    (pyFalsy sub = true → bound = none →
      callStrRun bulkO listO bound r allN sub = (Except.error configMsg, []))
    ∧ (pyOr e b1 = none → (∃ u, IterItem.str u ∈ items) →
        ∃ msg, iterAdvance1 bulkO listO (callIterable b1 items allN e) =
          (Except.error msg, []))
    ∧ (pyOr e b1 = none → ∀ pre u post, items = pre ++ IterItem.str u :: post →
        (∀ x ∈ pre, ∀ t1, x ≠ IterItem.other t1) →
        iterAdvance1 bulkO listO (callIterable b1 items allN e) =
          (Except.error configMsg, [])) := by
  refine ⟨fun h1 h2 => ?_, fun hn hmem => ?_, fun hn pre u post hitems hother => ?_⟩
  · subst h2
    simp [callStrRun, h1]
  · obtain ⟨msg, hmsg⟩ := resolvePairs_err_of_str e b1 hn items hmem
    exact ⟨msg, by simp [iterAdvance1, callIterable, hmsg]⟩
  · subst hitems
    have := resolvePairs_first_str e b1 hn u pre post hother
    simp [iterAdvance1, callIterable, this]

/-- Witness for C4: a bare username with no subreddit available fails with
the configuration error and no request, in both registers. -/
theorem c4_no_subreddit_witness :
    callStrRun oracleW listOW none "alice" true none = (Except.error configMsg, [])
    ∧ iterAdvance1 oracleW listOW (callIterable none [IterItem.str "alice"] false none) =
        (Except.error configMsg, []) :=
  ⟨(c4_no_subreddit oracleW listOW "alice" true none none none none
      [IterItem.str "alice"]).1 rfl rfl,
   (c4_no_subreddit oracleW listOW "alice" false none none none none
      [IterItem.str "alice"]).2.2 rfl [] "alice" [] rfl (by simp)⟩

/-- Counterexample to C4 as stated: with an unsupported element before the
bare string, the failure is the type error, not a configuration error. -/
theorem c4_counterexample :
    iterAdvance1 oracleW listOW
        (callIterable none [IterItem.other "int", IterItem.str "alice"] false none) =
      (Except.error (typeMsg "int"), [])
    ∧ typeMsg "int" ≠ configMsg := by
  constructor
  · simp [iterAdvance1, callIterable, resolvePairs]
  · decide

/-- C9: the iterable register is a generator function, so calling it merely
creates the generator — no resolution runs, no error is raised, no request
is issued at call time; every resolution error (configuration or
unsupported-type) surfaces on the first advance, still before any network
request. -/
theorem c9_call_never_raises (bulkO : BulkParams → List (Option Note))
    (listO : ListingParams → List (List Note)) (b e : Option String)
    (items : List IterItem) (allN : Bool) (msg : String)
    (h : resolvePairs e b items = Except.error msg) :
    callIterable b items allN e = ⟨b, e, items, allN⟩
    ∧ iterAdvance1 bulkO listO (callIterable b items allN e) = (Except.error msg, []) := by
  refine ⟨rfl, ?_⟩
  simp [iterAdvance1, callIterable, h]

/-- Witness for C9 at an unsupported element. -/
theorem c9_call_never_raises_witness :
    iterAdvance1 oracleW listOW (callIterable none [IterItem.other "list"] true none) =
      (Except.error (typeMsg "list"), []) :=
  (c9_call_never_raises oracleW listOW none none [IterItem.other "list"] true
    (typeMsg "list") (by simp [resolvePairs])).2

/-- C6: `create` resolves the subreddit in the order explicit truthy
parameter → `thing`'s subreddit → bound subreddit, raising the
configuration error when none resolves (and before the redditor is even
examined); it resolves the redditor in the order explicit truthy parameter
→ `thing`'s author, raising the configuration error when neither is given;
on success it returns the objectified response of the posted data. -/
theorem c6_create_resolution (postO : CreateData → Note)
    (bound label redditor subreddit : Option String) (note : String)
    (thing : Option Thing) (extra : List (String × String)) :
    (pyFalsy subreddit = false → pyFalsy redditor = false →
      createRun postO bound label note redditor subreddit thing extra =
        Except.ok (postO ⟨redditor.getD "", subreddit.getD "", note,
          if pyFalsy label then none else label, thing.map Thing.fullname, extra⟩))
    ∧ (∀ t, pyFalsy subreddit = true → thing = some t → pyFalsy redditor = false →
        createRun postO bound label note redditor subreddit thing extra =
          Except.ok (postO ⟨redditor.getD "", t.subreddit, note,
            if pyFalsy label then none else label, some t.fullname, extra⟩))
    ∧ (∀ bv, pyFalsy subreddit = true → thing = none → bound = some bv →
        pyFalsy redditor = false →
        createRun postO bound label note redditor subreddit thing extra =
          Except.ok (postO ⟨redditor.getD "", bv, note,
            if pyFalsy label then none else label, none, extra⟩))
    ∧ (pyFalsy subreddit = true → thing = none → bound = none →
        createRun postO bound label note redditor subreddit thing extra =
          Except.error subThingMsg)
    ∧ (∀ t, pyFalsy subreddit = false → pyFalsy redditor = true → thing = some t →
        createRun postO bound label note redditor subreddit thing extra =
          Except.ok (postO ⟨t.author, subreddit.getD "", note,
            if pyFalsy label then none else label, some t.fullname, extra⟩))
    ∧ (∀ t, pyFalsy subreddit = true → pyFalsy redditor = true → thing = some t →
        createRun postO bound label note redditor subreddit thing extra =
          Except.ok (postO ⟨t.author, t.subreddit, note,
            if pyFalsy label then none else label, some t.fullname, extra⟩))
    ∧ (pyFalsy subreddit = false → pyFalsy redditor = true → thing = none →
        createRun postO bound label note redditor subreddit thing extra =
          Except.error redThingMsg) := by
  refine ⟨fun h1 h2 => ?_, fun t h1 h2 h3 => ?_, fun bv h1 h2 h3 h4 => ?_,
    fun h1 h2 h3 => ?_, fun t h1 h2 h3 => ?_, fun t h1 h2 h3 => ?_,
    fun h1 h2 h3 => ?_⟩
  · simp only [createRun, h1, h2, Bool.false_eq_true, if_false]
    rfl
  · subst h2
    simp only [createRun, h1, h3, if_true, Bool.false_eq_true, if_false]
    rfl
  · subst h2; subst h3
    simp only [createRun, h1, h4, if_true, Bool.false_eq_true, if_false]
    rfl
  · subst h2; subst h3
    simp only [createRun, h1, if_true]
    rfl
  · subst h3
    simp only [createRun, h1, h2, if_true, Bool.false_eq_true, if_false]
    rfl
  · subst h3
    simp only [createRun, h1, h2, if_true]
    rfl
  · subst h3
    simp only [createRun, h1, h2, if_true, Bool.false_eq_true, if_false]
    rfl

/-- Witness for C6: `thing` alone resolves both fields; with nothing at all
the subreddit configuration error is raised. -/
theorem c6_create_resolution_witness :
    createRun postOW none none "hi" none none (some ⟨"redditdev", "spez", "t3_x"⟩) [] =
      Except.ok (postOW ⟨"spez", "redditdev", "hi", none, some "t3_x", []⟩)
    ∧ createRun postOW none none "hi" none none none [] = Except.error subThingMsg :=
  ⟨by
    have := (c6_create_resolution postOW none none none none "hi"
      (some ⟨"redditdev", "spez", "t3_x"⟩) []).2.2.2.2.2.1 ⟨"redditdev", "spez", "t3_x"⟩
      rfl rfl rfl
    simpa using this,
   (c6_create_resolution postOW none none none none "hi" none []).2.2.2.1 rfl rfl rfl⟩

/-- C7: without `delete_all`, exactly one of `(redditor, note_id)` being
`None` raises the argument error, and the raise happens before the deletion
request (the returned trace is an error, containing no request). -/
theorem c7_delete_one_none (listO : ListingParams → List (List Note))
    (bound noteId redditor : Option String)
    (h : redditor.isNone ≠ noteId.isNone) :
    deleteRun listO bound false noteId redditor = Except.error deleteArgMsg := by
  rcases redditor with _ | r <;> rcases noteId with _ | nid
  · simp at h
  · rfl
  · rfl
  · simp at h

/-- Witness for C7: `delete(redditor="u", note_id=None, delete_all=False)`
raises the argument error. -/
theorem c7_delete_one_none_witness :
    deleteRun listOW none false none (some "u") = Except.error deleteArgMsg :=
  c7_delete_one_none listOW none none (some "u") (by simp)

/-- C10: without `delete_all` and with both `redditor` and `note_id` equal
to `None`, no error is raised at all; the single issued request deletes with
the literal string `"None"` as the user, the stringified bound subreddit
(`"None"` when no subreddit is bound), and no note id. -/
theorem c10_delete_none_none (listO : ListingParams → List (List Note))
    (bound : Option String) :
    deleteRun listO bound false none none =
      Except.ok [Request.del "None" (pyStr bound) none]
    ∧ pyStr (none : Option String) = "None" :=
  ⟨rfl, rfl⟩

/-- C5 fails on the code: `delete(delete_all=True)` consumes the listing
(here one page), deletes each note individually, and then — because the
final `params`/`delete` block is not guarded by an `else` — issues one
further deletion request with no note id.  The trace length is the listing
requests plus one delete per note plus one stray request. -/
theorem c5_delete_all_stray_request :
    deleteRun listOW (some "redditdev") true none (some "spez") =
      Except.ok [Request.listGet ⟨some "redditdev", "spez"⟩ 0,
        Request.del "spez" "redditdev" (some "n1"),
        Request.del "spez" "redditdev" none]
    ∧ [Request.listGet (⟨some "redditdev", "spez"⟩ : ListingParams) 0,
        Request.del "spez" "redditdev" (some "n1"),
        Request.del "spez" "redditdev" none].length =
      (listAllFull listOW ⟨some "redditdev", "spez"⟩).2.length +
        (listAllFull listOW ⟨some "redditdev", "spez"⟩).1.length + 1 :=
  ⟨rfl, rfl⟩

end PrawModNotes
